import Mathlib

/-!
Verification of the FilipEdge trading-agent worker.

This file shallowly embeds the worker's core code in Lean 4:

* `src/worker/src/logger.ts` — the bounded in-memory log buffer;
* `src/unnamed/part_006` (`bybitClient.ts`) — the market-data ticker
  selection of `BybitClient.getMarketData`;
* `src/unnamed/part_008` (`tradeLogger.ts`) — the trade audit list;
* `src/worker/src/agent.ts` — the `Agent` class.  The file in the
  repository holds two revisions of the class separated by a document
  marker; the second (current) revision, which owns `openPosition`,
  `hold`, `closePosition` and `recordClosedPosition`, is embedded as a
  state machine (`AgentSt`, `runBody`, `runStep`, `applyAct`), and the
  first (earlier) revision's candidate-symbol selection in `analyze` is
  embedded as `analyzeSymbolsEarly`.

Numbers that are `number` (floats) in TypeScript are embedded as `ℚ`;
timestamps (`Date.now()` milliseconds) as `ℤ`.  Each exchange or oracle
call is resolved by an environment record `Env` supplied per wake-up:
an `Option` whose `none` models the call throwing (or, for the oracle,
returning `null`; the gemini wrappers catch their own errors and return
`null`, so they never throw).  JavaScript's `toFixed` is embedded as
round-half-up at a given number of decimal digits, and the decimal
strings delivered by the exchange API (`qtyStep`, `minOrderQty`,
`tickSize`) as mantissa/exponent pairs `Decimal`.
-/

/-- Enumeration `AgentState` from `types.ts`. -/
inductive AgentState where
  | STOPPED
  | ANALYZING
  | EXECUTING
  | HOLDING
  | COOLDOWN
  | ERROR
deriving DecidableEq, Repr

/-- Enumeration `StrategyType` from `types.ts`. -/
inductive StrategyType where
  | PROFIT
  | LOSS
deriving DecidableEq, Repr

/-- Enumeration `OrderSide` from `types.ts`. -/
inductive OrderSide where
  | LONG
  | SHORT
deriving DecidableEq, Repr

/-- Confidence tier of a trade decision (`gemini.ts`, `TradeDecision`). -/
inductive Confidence where
  | high
  | medium
  | low
deriving DecidableEq, Repr

/-- Interface `TradeDecision` from `gemini.ts`. -/
structure TradeDecision where
  symbol : String
  reason : String
  confidence : Confidence
deriving DecidableEq, Repr

/-- Interface `Position` from the worker's `types.ts` (current revision,
with `entryTimestamp` added by `Agent.execute`). -/
structure Position where
  symbol : String
  side : OrderSide
  entryPrice : ℚ
  size : ℚ
  unrealizedPnl : ℚ
  agentId : String
  entryTimestamp : ℤ
deriving DecidableEq, Repr

/-- Interface `Trade` logged by `tradeLogger.ts` (`part_008`).  The
source stores the close time as an ISO string derived from the
exchange's `updatedTime` milliseconds; the milliseconds value is kept
here. -/
structure Trade where
  timestamp : ℤ
  agentId : String
  symbol : String
  side : OrderSide
  size : ℚ
  entryPrice : ℚ
  closePrice : ℚ
  pnl : ℚ
deriving DecidableEq, Repr

/-- Interface `LogEntry` from `types.ts`. -/
structure LogEntry where
  timestamp : String
  agentId : String
  message : String
deriving DecidableEq, Repr

/-- Constant `MAX_LOG_ENTRIES` from `logger.ts`. -/
def MAX_LOG_ENTRIES : Nat := 50

/-- Buffer update performed by one `log()` call in `logger.ts`: the new
entry is prepended (`logs.unshift(...)`) and, if the buffer then holds
more than `MAX_LOG_ENTRIES` entries, the last (oldest) entry is removed
(`logs.pop()`). -/
def logPush (logs : List LogEntry) (e : LogEntry) : List LogEntry :=
  let l := e :: logs
  if l.length > MAX_LOG_ENTRIES then l.dropLast else l

/-- State of the `logs` module variable of `logger.ts` after a sequence
of `log()` calls starting from the empty buffer; `getLogs()` returns
exactly this list. -/
def runLog (es : List LogEntry) : List LogEntry :=
  es.foldl logPush []

/-- Ticker record as consumed from the exchange's `getTickers` response
(`bybitClient.ts` and the earlier-revision `Agent.analyze`); string
numeric fields arrive through `parseFloat`. -/
structure Ticker where
  symbol : String
  lastPrice : ℚ
  price24hPcnt : ℚ
  volume24h : ℚ
  turnover24h : ℚ
deriving DecidableEq, Repr

/-- Constant `HIGH_VOLUME_THRESHOLD` from `bybitClient.ts` (50 million
USD); the earlier-revision `Agent.analyze` uses the same literal
`50_000_000`. -/
def HIGH_VOLUME_THRESHOLD : ℚ := 50000000

/-- JavaScript `String.prototype.endsWith`, embedded as a suffix check
on the character list. -/
def jsEndsWith (s pat : String) : Bool :=
  s.data.reverse.take pat.data.length == pat.data.reverse

/-- Descending insertion by `turnover24h`, the effect of the JavaScript
`Array.prototype.sort` comparator `(a, b) => b.turnover24h -
a.turnover24h` used by the earlier-revision `Agent.analyze`. -/
def insertByTurnoverDesc (t : Ticker) : List Ticker → List Ticker
  | [] => [t]
  | x :: xs =>
      if x.turnover24h < t.turnover24h then t :: x :: xs
      else x :: insertByTurnoverDesc t xs

/-- Sort a ticker list in descending order of `turnover24h`. -/
def sortByTurnoverDesc : List Ticker → List Ticker
  | [] => []
  | x :: xs => insertByTurnoverDesc x (sortByTurnoverDesc xs)

/-- Symbol list embedded in the market context built by
`BybitClient.getMarketData` (`bybitClient.ts`): keep tickers whose
symbol ends in `USDT` and whose 24h turnover exceeds
`HIGH_VOLUME_THRESHOLD`, in the order delivered by the exchange, and
take the first 20 (`.slice(0, 20)`). -/
def getMarketDataSymbols (l : List Ticker) : List String :=
  ((l.filter fun t =>
      jsEndsWith t.symbol "USDT" && decide (t.turnover24h > HIGH_VOLUME_THRESHOLD)).take 20).map
    (fun t => t.symbol)

/-- Candidate-symbol selection of the earlier-revision `Agent.analyze`
(`agent.ts`, first revision): filter tickers with 24h turnover above
`50_000_000`, sort descending by turnover, take the top 20
(`.slice(0, 20)`), drop the top 5 (`.slice(5)`), and map to symbols. -/
def analyzeSymbolsEarly (l : List Ticker) : List String :=
  ((((sortByTurnoverDesc (l.filter fun t =>
      decide (t.turnover24h > 50000000))).take 20).drop 5).map
    (fun t => t.symbol))

/-- Modelled from the spec: the candidate symbol set described in
spec §4.2 — "turnover above a fixed USD threshold, sorted descending by
turnover ... take the top 20 by turnover, drop the top 5, analyze the
remaining 15". -/
def specCandidateSymbols (l : List Ticker) : List String :=
  ((((sortByTurnoverDesc (l.filter fun t =>
      decide (t.turnover24h > 50000000))).take 20).drop 5).map
    (fun t => t.symbol))

/-- Concrete one-ticker market snapshot used to separate the described
pipeline from the one the current code runs. -/
def tickerBTC : Ticker :=
  { symbol := "BTCUSDT", lastPrice := 1, price24hPcnt := 0, volume24h := 0,
    turnover24h := 60000000 }

/-- Decimal string as delivered by the exchange API for instrument
fields (`qtyStep`, `minOrderQty`, `tickSize`): mantissa `m` and number
of fractional digits `e`, denoting `m / 10 ^ e`.  `parseFloat` yields
the value `val`; the precision computations
`tickSize.toString().split('.')[1]?.length || 0` in `Agent.execute`
yield `e` (the representation is canonical whenever the source string
has no trailing zeros, which is how JavaScript prints the parsed
number back). -/
structure Decimal where
  m : ℤ
  e : ℕ
deriving DecidableEq, Repr

/-- Numeric value of a decimal string under `parseFloat`. -/
def Decimal.val (d : Decimal) : ℚ :=
  (d.m : ℚ) / 10 ^ d.e

/-- Instrument precision metadata used by `Agent.execute`
(`instrument.lotSizeFilter.minOrderQty`, `.qtyStep`,
`instrument.priceFilter.tickSize`). -/
structure Instrument where
  minOrderQty : Decimal
  qtyStep : Decimal
  tickSize : Decimal
deriving DecidableEq, Repr

/-- JavaScript `Number.prototype.toFixed(d)` on the exact rational
value: round half-up at `d` fractional digits (ECMA-262 picks the
closer of the two candidates and the larger one on a tie). -/
def toFixed (d : ℕ) (x : ℚ) : ℚ :=
  (⌊x * 10 ^ d + 1 / 2⌋ : ℚ) / 10 ^ d

/-- Exchange position row as used by `Agent.execute` and `Agent.hold`
(`bybit-api` `PositionInfo`, already filtered to `size > 0` by
`BybitClient.getPosition`).  `sideBuy` is `true` for `side === 'Buy'`. -/
structure BybitPos where
  symbol : String
  sideBuy : Bool
  avgPrice : ℚ
  size : ℚ
  unrealisedPnl : ℚ
deriving DecidableEq, Repr

/-- Closed-PnL row returned by `BybitClient.getClosedPnl`. -/
structure ClosedPnlRec where
  closedPnl : ℚ
  avgExitPrice : ℚ
  updatedTime : ℤ
deriving DecidableEq, Repr

/-- Hold/close verdict of `getHoldDecision` (`gemini.ts`, current
revision). -/
inductive HoldVerdict where
  | HOLD
  | CLOSE
deriving DecidableEq, Repr

/-- Mutable fields of one `Agent` instance (current revision of
`agent.ts`), together with the `trades` list of `tradeLogger.ts` that
`recordClosedPosition` appends to via `logTrade`.  `timeoutId` is the
pending `setTimeout` handle, recorded as the scheduled delay in
milliseconds. -/
structure AgentSt where
  stratId : String
  stratType : StrategyType
  state : AgentState
  balance : ℚ
  pnl : ℚ
  tradesToday : ℕ
  openPosition : Option Position
  timeoutId : Option ℕ
  trades : List Trade
deriving DecidableEq, Repr

/-- Constant `MAX_HOLD_DURATION` from `agent.ts` (one hour in
milliseconds). -/
def MAX_HOLD_DURATION : ℤ := 60 * 60 * 1000

/-- Agent construction (`new Agent(strategy, ...)`): stopped, balance
10000, no position, no pending timer. -/
def initAgent (id : String) (ty : StrategyType) : AgentSt :=
  { stratId := id, stratType := ty, state := .STOPPED, balance := 10000,
    pnl := 0, tradesToday := 0, openPosition := none, timeoutId := none,
    trades := [] }

/-- Responses of the external collaborators for the awaited calls of
one wake-up of the agent loop.  For exchange calls an outer `none`
models the call throwing; for `getTradeDecision` and `getHoldDecision`
`none` models the oracle returning `null` (those wrappers catch their
own errors).  `now` is the value of `Date.now()` during the wake. -/
structure Env where
  now : ℤ
  tickers : Option (List Ticker)
  decision : Option TradeDecision
  levOk : Bool
  instrument : Option Instrument
  lastPrice : Option ℚ
  orderOk : Bool
  posAfterOrder : Option (Option BybitPos)
  posInHold : Option (Option BybitPos)
  holdVerdict : Option HoldVerdict
  closeOk : Bool
  closedPnl : Option (Option ClosedPnlRec)
deriving DecidableEq, Repr

/-- Observable actions performed by one wake-up, in program order.
`enterExecuting` is the `this.state = AgentState.EXECUTING` assignment
in `analyze`; `clearPosition` is the `this.openPosition = null`
assignment in `recordClosedPosition`; `pnlQuery` is the
`getClosedPnl` exchange call; `accumPnl` covers the
`this.pnl += finalPnl; this.balance += finalPnl` pair; `appendTrade`
is the `logTrade` call; `placeOrder` and `closeOrder` are the
corresponding exchange order submissions. -/
inductive Effect where
  | enterExecuting
  | placeOrder (symbol : String) (side : OrderSide) (qty tp sl : ℚ)
  | closeOrder (symbol : String) (side : OrderSide) (size : ℚ)
  | oracleHoldQuery
  | clearPosition
  | pnlQuery (symbol : String)
  | accumPnl (amount : ℚ)
  | appendTrade (t : Trade)
deriving DecidableEq, Repr

/-- Result of running one (possibly nested) agent method to
completion: the mutated agent, the effects in program order, and
whether an exception escaped the method (to be caught by `run`'s
`catch`). -/
structure MRes where
  st : AgentSt
  evs : List Effect
  thrown : Bool
deriving DecidableEq, Repr

/-- State mutation of entering `ERROR` with a retry wake scheduled
after `delay` milliseconds (`this.state = AgentState.ERROR;
this.scheduleNextRun(delay)`). -/
def errState (s : AgentSt) (delay : ℕ) : AgentSt :=
  { s with state := .ERROR, timeoutId := some delay }

/-- Method `Agent.execute` (current revision).  Sets leverage, reads
instrument and ticker, computes TP/SL at ±10% of the last price
rounded with `toFixed` at the tick-size precision, sizes a $100
position, aborts to `COOLDOWN` when the raw quantity is below the
instrument minimum, otherwise floors the quantity to the quantity step
and submits a market order; on success populates `openPosition` from
the exchange-reported position and enters `HOLDING`.  All failures are
caught by the method's own `try/catch` and produce `ERROR` with a 10s
retry. -/
def executeM (s : AgentSt) (env : Env) (d : TradeDecision) : MRes :=
  if !env.levOk then ⟨errState s 10000, [], false⟩
  else
    match env.instrument with
    | none => ⟨errState s 10000, [], false⟩
    | some inst =>
      match env.lastPrice with
      | none => ⟨errState s 10000, [], false⟩
      | some price =>
        let minOrderSize := inst.minOrderQty.val
        let qtyStep := inst.qtyStep.val
        let side : OrderSide :=
          if s.stratType = .PROFIT then .LONG else .SHORT
        let stopLossPrice :=
          if side = .LONG then price * (1 - 1/10) else price * (1 + 1/10)
        let takeProfitPrice :=
          if side = .LONG then price * (1 + 1/10) else price * (1 - 1/10)
        let tp := toFixed inst.tickSize.e takeProfitPrice
        let sl := toFixed inst.tickSize.e stopLossPrice
        let qtyRaw := 100 / price
        if qtyRaw < minOrderSize then
          ⟨{ s with state := .COOLDOWN, timeoutId := some 30000 }, [], false⟩
        else
          let qty := (⌊qtyRaw / qtyStep⌋ : ℚ) * qtyStep
          let finalQty := toFixed inst.qtyStep.e qty
          let ev := Effect.placeOrder d.symbol side finalQty tp sl
          if !env.orderOk then ⟨errState s 10000, [ev], false⟩
          else
            match env.posAfterOrder with
            | none => ⟨errState s 10000, [ev], false⟩
            | some none => ⟨errState s 10000, [ev], false⟩
            | some (some bp) =>
              let pos : Position :=
                { symbol := bp.symbol,
                  side := if bp.sideBuy then .LONG else .SHORT,
                  entryPrice := bp.avgPrice, size := bp.size,
                  unrealizedPnl := bp.unrealisedPnl,
                  agentId := s.stratId, entryTimestamp := env.now }
              ⟨{ s with
                  openPosition := some pos,
                  tradesToday := s.tradesToday + 1,
                  state := .HOLDING, timeoutId := some 15000 },
                [ev], false⟩

/-- Method `Agent.analyze` (current revision): fetch the market
context (a throw propagates to `run`), ask the oracle, and accept the
decision exactly when one is returned with confidence other than
`'low'` — entering `EXECUTING` and delegating to `execute` — otherwise
enter `COOLDOWN` with a one-minute wake. -/
def analyzeM (s : AgentSt) (env : Env) : MRes :=
  match env.tickers with
  | none => ⟨s, [], true⟩
  | some _ =>
    match env.decision with
    | some d =>
      if d.confidence ≠ .low then
        let r := executeM { s with state := .EXECUTING } env d
        ⟨r.st, .enterExecuting :: r.evs, r.thrown⟩
      else ⟨{ s with state := .COOLDOWN, timeoutId := some 60000 }, [], false⟩
    | none => ⟨{ s with state := .COOLDOWN, timeoutId := some 60000 }, [], false⟩

/-- Method `Agent.closePosition` (current revision): if a position is
tracked, submit a reduce-only market order on the opposite side for
the tracked size and schedule a 5s re-check; a submission failure is
caught and produces `ERROR` with a 10s retry. -/
def closePositionM (s : AgentSt) (env : Env) : MRes :=
  match s.openPosition with
  | none => ⟨s, [], false⟩
  | some p =>
    let ev := Effect.closeOrder p.symbol p.side p.size
    if env.closeOk then ⟨{ s with timeoutId := some 5000 }, [ev], false⟩
    else ⟨errState s 10000, [ev], false⟩

/-- Method `Agent.recordClosedPosition` (current revision): clear
`openPosition` first, then query the realized-PnL history; if a row is
found, add its PnL to the `pnl` and `balance` accumulators and append
one `Trade` via `logTrade`, else log the gap; either way enter
`COOLDOWN` with a two-minute wake.  A throw from the query is caught
and produces `ERROR` with a 10s retry (the position stays cleared). -/
def recordClosedPositionM (s : AgentSt) (env : Env) : MRes :=
  match s.openPosition with
  | none => ⟨s, [], false⟩
  | some p =>
    let s0 := { s with openPosition := none }
    match env.closedPnl with
    | none =>
        ⟨errState s0 10000, [.clearPosition, .pnlQuery p.symbol], false⟩
    | some none =>
        ⟨{ s0 with state := .COOLDOWN, timeoutId := some 120000 },
          [.clearPosition, .pnlQuery p.symbol], false⟩
    | some (some cp) =>
        let t : Trade :=
          { timestamp := cp.updatedTime, agentId := s.stratId,
            symbol := p.symbol, side := p.side, size := p.size,
            entryPrice := p.entryPrice, closePrice := cp.avgExitPrice,
            pnl := cp.closedPnl }
        ⟨{ s0 with
            pnl := s0.pnl + cp.closedPnl,
            balance := s0.balance + cp.closedPnl,
            trades := s0.trades ++ [t],
            state := .COOLDOWN, timeoutId := some 120000 },
          [.clearPosition, .pnlQuery p.symbol, .accumPnl cp.closedPnl,
            .appendTrade t], false⟩

/-- Method `Agent.hold` (current revision): with no tracked position,
cool down; otherwise query the live position (a throw propagates to
`run`).  If the exchange no longer shows it, reconcile via
`recordClosedPosition`.  If it is still open, refresh the unrealized
PnL, force a close once the position has been held longer than
`MAX_HOLD_DURATION`, and otherwise consult the oracle for a HOLD/CLOSE
verdict (`CLOSE` closes, anything else re-checks in one minute). -/
def holdM (s : AgentSt) (env : Env) : MRes :=
  match s.openPosition with
  | none => ⟨{ s with state := .COOLDOWN, timeoutId := some 15000 }, [], false⟩
  | some p =>
    match env.posInHold with
    | none => ⟨s, [], true⟩
    | some none => recordClosedPositionM s env
    | some (some bp) =>
      if env.now - p.entryTimestamp > MAX_HOLD_DURATION then
        closePositionM
          { s with openPosition := some { p with unrealizedPnl := bp.unrealisedPnl } } env
      else
        match env.tickers with
        | none =>
            ⟨{ s with openPosition := some { p with unrealizedPnl := bp.unrealisedPnl } },
              [], true⟩
        | some _ =>
          match env.holdVerdict with
          | some .CLOSE =>
              let r := closePositionM
                { s with openPosition := some { p with unrealizedPnl := bp.unrealisedPnl } } env
              ⟨r.st, .oracleHoldQuery :: r.evs, r.thrown⟩
          | _ =>
              ⟨{ s with
                  openPosition := some { p with unrealizedPnl := bp.unrealisedPnl },
                  timeoutId := some 60000 },
                [.oracleHoldQuery], false⟩

/-- Body of the `switch` in `Agent.run` (current revision).  From
`STOPPED` or `COOLDOWN` the agent enters `ANALYZING` and analyzes;
from `HOLDING` it first interpolates `this.openPosition!.symbol` into
a log line — which throws on a null position — and then holds; from
`ERROR` it cools down for one minute; `ANALYZING` and `EXECUTING` are
transitional and do nothing. -/
def runBody (s : AgentSt) (env : Env) : MRes :=
  match s.state with
  | .STOPPED | .COOLDOWN => analyzeM { s with state := .ANALYZING } env
  | .HOLDING =>
    match s.openPosition with
    | none => ⟨s, [], true⟩
    | some _ => holdM s env
  | .ERROR => ⟨{ s with state := .COOLDOWN, timeoutId := some 60000 }, [], false⟩
  | .ANALYZING | .EXECUTING => ⟨s, [], false⟩

/-- Method `Agent.run` (current revision): the switch body wrapped in
`try/catch`; an escaped exception sets `ERROR` and schedules a 10s
retry on whatever state the body left behind. -/
def runStep (s : AgentSt) (env : Env) : AgentSt × List Effect :=
  let r := runBody s env
  if r.thrown then ({ r.st with state := .ERROR, timeoutId := some 10000 }, r.evs)
  else (r.st, r.evs)

/-- Method `Agent.start` (current revision): a call is honored exactly
when the state is `STOPPED` (otherwise only "Agent is already
running." is logged), and an honored call runs one cycle
synchronously. -/
def startStep (s : AgentSt) (env : Env) : AgentSt × List Effect :=
  if s.state ≠ .STOPPED then (s, [])
  else runStep s env

/-- Method `Agent.stop` (current revision): cancel the pending wake
timer and force `STOPPED`. -/
def stopStep (s : AgentSt) : AgentSt :=
  { s with timeoutId := none, state := .STOPPED }

/-- External stimuli an agent instance can receive: a `start()` call,
a `stop()` call, or the firing of the pending `setTimeout` wake (which
consumes the timer and runs `run`; with no pending timer nothing
fires). -/
inductive Act where
  | start (env : Env)
  | stop
  | wake (env : Env)

/-- One stimulus applied to the agent. -/
def applyAct (s : AgentSt) (a : Act) : AgentSt :=
  match a with
  | .start env => (startStep s env).1
  | .stop => stopStep s
  | .wake env =>
      if s.timeoutId.isSome then (runStep { s with timeoutId := none } env).1
      else s

/-- Agent state after a sequence of stimuli. -/
def runActs (s : AgentSt) (as : List Act) : AgentSt :=
  as.foldl applyAct s

/-- Replay of the state mutation an `Effect` stands for, used to state
what an observer (for example a concurrent `getStatus()` read) would
see part-way through `recordClosedPosition`. -/
def applyEvent (s : AgentSt) : Effect → AgentSt
  | .clearPosition => { s with openPosition := none }
  | .accumPnl x => { s with pnl := s.pnl + x, balance := s.balance + x }
  | .appendTrade t => { s with trades := s.trades ++ [t] }
  | _ => s

/-- Effects belonging to the PnL query / PnL accumulation part of
reconciliation. -/
def isPnlEvent : Effect → Bool
  | .pnlQuery _ => true
  | .accumPnl _ => true
  | _ => false

/-- Invariant relating the agent state to the tracked position: in
`HOLDING` a position is tracked. -/
def HoldInv (s : AgentSt) : Prop :=
  s.state = .HOLDING → s.openPosition ≠ none

/-- Oracle decision fixture: trade `BTCUSDT` with high confidence. -/
abbrev decOne : TradeDecision :=
  { symbol := "BTCUSDT", reason := "r", confidence := .high }

/-- Oracle decision fixture whose symbol does not occur in the market
snapshot. -/
abbrev decRogue : TradeDecision :=
  { symbol := "XYZUSDT", reason := "r", confidence := .high }

/-- Instrument fixture: `minOrderQty = 0.001`, `qtyStep = 0.001`,
`tickSize = 0.1` (the spec §8 scenario). -/
abbrev instBTC : Instrument :=
  { minOrderQty := ⟨1, 3⟩, qtyStep := ⟨1, 3⟩, tickSize := ⟨1, 1⟩ }

/-- Instrument fixture whose minimum (3) is not a multiple of its
quantity step (2). -/
abbrev instOdd : Instrument :=
  { minOrderQty := ⟨3, 0⟩, qtyStep := ⟨2, 0⟩, tickSize := ⟨1, 0⟩ }

/-- Instrument fixture with a half-unit tick: `minOrderQty = 1`,
`qtyStep = 1`, `tickSize = 0.5`. -/
abbrev instTick : Instrument :=
  { minOrderQty := ⟨1, 0⟩, qtyStep := ⟨1, 0⟩, tickSize := ⟨5, 1⟩ }

/-- Exchange position fixture for a filled `BTCUSDT` long. -/
abbrev bpBTC : BybitPos :=
  { symbol := "BTCUSDT", sideBuy := true, avgPrice := 50000, size := 1/500,
    unrealisedPnl := 0 }

/-- Tracked position fixture created from `bpBTC` at time 0. -/
abbrev posBTC : Position :=
  { symbol := "BTCUSDT", side := .LONG, entryPrice := 50000, size := 1/500,
    unrealizedPnl := 0, agentId := "P1", entryTimestamp := 0 }

/-- Environment fixture for a wake that opens a position: market data
with the single `BTCUSDT` ticker, a high-confidence decision, all
exchange calls succeeding at price 50000. -/
abbrev envOpen : Env :=
  { now := 0, tickers := some [tickerBTC], decision := some decOne,
    levOk := true, instrument := some instBTC, lastPrice := some 50000,
    orderOk := true, posAfterOrder := some (some bpBTC),
    posInHold := some (some bpBTC), holdVerdict := some .HOLD,
    closeOk := true, closedPnl := some none }

/-- Environment fixture for a wake in `HOLDING` long after entry
(`now` = 10'000'000 ms > one hour) whose close-order submission
throws; its closed-PnL query would return no row. -/
abbrev envCloseFail : Env :=
  { now := 10000000, tickers := some [tickerBTC], decision := none,
    levOk := true, instrument := some instBTC, lastPrice := some 50000,
    orderOk := true, posAfterOrder := some (some bpBTC),
    posInHold := some (some bpBTC), holdVerdict := some .HOLD,
    closeOk := false, closedPnl := some none }

/-- Environment fixture delivering a high-confidence decision for a
symbol absent from the market snapshot; the leverage call then fails
so the cycle stops early. -/
abbrev envRogue : Env :=
  { now := 0, tickers := some [tickerBTC], decision := some decRogue,
    levOk := false, instrument := some instBTC, lastPrice := some 50000,
    orderOk := true, posAfterOrder := some (some bpBTC),
    posInHold := some (some bpBTC), holdVerdict := some .HOLD,
    closeOk := true, closedPnl := some none }

/-- Environment fixture in which the oracle returns no decision. -/
abbrev envNoTrade : Env :=
  { now := 0, tickers := some [tickerBTC], decision := none,
    levOk := true, instrument := some instBTC, lastPrice := some 50000,
    orderOk := true, posAfterOrder := some (some bpBTC),
    posInHold := some (some bpBTC), holdVerdict := some .HOLD,
    closeOk := true, closedPnl := some none }

/-- Environment fixture for sizing with `instOdd` at price 200/7, so
the raw quantity 100/(200/7) = 3.5 passes the minimum check (3) but
floors to 2 < 3. -/
abbrev envOdd : Env :=
  { now := 0, tickers := some [tickerBTC], decision := some decOne,
    levOk := true, instrument := some instOdd, lastPrice := some (200/7),
    orderOk := true, posAfterOrder := some (some bpBTC),
    posInHold := some (some bpBTC), holdVerdict := some .HOLD,
    closeOk := true, closedPnl := some none }

/-- Environment fixture for TP/SL rounding with `instTick` at price
0.5: TP = toFixed(1, 0.55) = 0.6 (off the 0.5 tick grid) and
SL = toFixed(1, 0.45) = 0.5 (equal to entry). -/
abbrev envTick : Env :=
  { now := 0, tickers := some [tickerBTC], decision := some decOne,
    levOk := true, instrument := some instTick, lastPrice := some (1/2),
    orderOk := true, posAfterOrder := some (some bpBTC),
    posInHold := some (some bpBTC), holdVerdict := some .HOLD,
    closeOk := true, closedPnl := some none }

/-- Freshly constructed agent `P1` about to analyze. -/
abbrev aAnalyzing : AgentSt :=
  { stratId := "P1", stratType := .PROFIT, state := .ANALYZING, balance := 10000,
    pnl := 0, tradesToday := 0, openPosition := none, timeoutId := none,
    trades := [] }

/-- Freshly constructed agent `P1` about to execute. -/
abbrev aExecuting : AgentSt :=
  { stratId := "P1", stratType := .PROFIT, state := .EXECUTING, balance := 10000,
    pnl := 0, tradesToday := 0, openPosition := none, timeoutId := none,
    trades := [] }

/-- Agent `P1` holding the `posBTC` position after the `envOpen`
cycle. -/
abbrev posState : AgentSt :=
  { stratId := "P1", stratType := .PROFIT, state := .HOLDING, balance := 10000,
    pnl := 0, tradesToday := 1, openPosition := some posBTC,
    timeoutId := some 15000, trades := [] }

/-- Agent `P1` after the close-order submission of the
`envCloseFail` wake failed: `ERROR`, position still tracked. -/
abbrev errPosState : AgentSt :=
  { stratId := "P1", stratType := .PROFIT, state := .ERROR, balance := 10000,
    pnl := 0, tradesToday := 1, openPosition := some posBTC,
    timeoutId := some 10000, trades := [] }

/-- Agent `P1` cooling down after a no-decision cycle. -/
abbrev cdState : AgentSt :=
  { stratId := "P1", stratType := .PROFIT, state := .COOLDOWN, balance := 10000,
    pnl := 0, tradesToday := 0, openPosition := none, timeoutId := some 60000,
    trades := [] }

/-- Agent `P1` after `stop()` was called in `cdState`. -/
abbrev stoppedState : AgentSt :=
  { stratId := "P1", stratType := .PROFIT, state := .STOPPED, balance := 10000,
    pnl := 0, tradesToday := 0, openPosition := none, timeoutId := none,
    trades := [] }
theorem logPush_eq_take (logs : List LogEntry) (e : LogEntry)
    (h : logs.length ≤ MAX_LOG_ENTRIES) :
    logPush logs e = (e :: logs).take MAX_LOG_ENTRIES := by
  unfold logPush
  by_cases hl : (e :: logs).length > MAX_LOG_ENTRIES
  · have hlen : logs.length = MAX_LOG_ENTRIES := by
      simp only [List.length_cons] at hl; omega
    simp only [hl, if_pos]
    rw [List.dropLast_eq_take]
    simp [hlen]
  · rw [if_neg hl]
    have hle : (e :: logs).length ≤ MAX_LOG_ENTRIES := Nat.not_lt.mp hl
    exact (List.take_of_length_le hle).symm

theorem foldl_logPush (es : List LogEntry) (acc : List LogEntry)
    (h : acc.length ≤ MAX_LOG_ENTRIES) :
    es.foldl logPush acc = (es.reverse ++ acc).take MAX_LOG_ENTRIES := by
  induction es generalizing acc with
  | nil =>
      simp only [List.foldl_nil, List.reverse_nil, List.nil_append]
      exact (List.take_of_length_le h).symm
  | cons e es ih =>
      rw [List.foldl_cons, logPush_eq_take _ _ h,
        ih _ (by simp [List.length_take])]
      rw [List.reverse_cons, List.append_assoc]
      simp only [List.singleton_append]
      rw [List.take_append_eq_append_take, List.take_append_eq_append_take,
        List.take_take]
      have hm : (MAX_LOG_ENTRIES - es.reverse.length) ⊓ MAX_LOG_ENTRIES
          = MAX_LOG_ENTRIES - es.reverse.length := by omega
      rw [hm]

/-- C10: for every sequence of `log()` calls, `getLogs()` returns at
most 50 entries ordered newest-first: each call prepends its entry, and
once the buffer holds more than 50 entries the oldest entry is
discarded, so the buffer is always exactly the (up to) 50 most recent
entries, newest first. -/
theorem C10_log_buffer (es : List LogEntry) :
    runLog es = es.reverse.take MAX_LOG_ENTRIES ∧
    (runLog es).length ≤ MAX_LOG_ENTRIES := by
  have h : runLog es = es.reverse.take MAX_LOG_ENTRIES := by
    unfold runLog
    rw [foldl_logPush es [] (by simp [MAX_LOG_ENTRIES])]
    simp
  refine ⟨h, ?_⟩
  rw [h]
  simp [List.length_take]


/-- C9 counterexample: on a snapshot holding the single ticker
`BTCUSDT` with turnover $60M, the current `BybitClient.getMarketData`
analyzes `[BTCUSDT]`, while the pipeline the claim describes (sort
descending, take 20, drop the top 5) yields the empty set — so the
candidate set used in Analyze is not computed by dropping the top 5 of
the top 20. -/
theorem C9_counterexample :
    getMarketDataSymbols [tickerBTC] = ["BTCUSDT"] ∧
    specCandidateSymbols [tickerBTC] = [] ∧
    getMarketDataSymbols [tickerBTC] ≠ specCandidateSymbols [tickerBTC] := by
  refine ⟨?_, ?_, ?_⟩ <;>
    norm_num [getMarketDataSymbols, specCandidateSymbols, tickerBTC,
      sortByTurnoverDesc, insertByTurnoverDesc, jsEndsWith,
      HIGH_VOLUME_THRESHOLD, List.filter]

/-- C9 amended: the earlier-revision `Agent.analyze` computes the
candidate set exactly as the claim describes (turnover above $50M,
sorted descending, top 20, top 5 dropped); the current
`BybitClient.getMarketData` instead keeps at most the first 20
USDT-quoted tickers whose turnover exceeds $50M, in exchange order,
without sorting or dropping the top 5. -/
theorem C9_market_candidates (l : List Ticker) :
    analyzeSymbolsEarly l = specCandidateSymbols l ∧
    (getMarketDataSymbols l).length ≤ 20 ∧
    (∀ sym ∈ getMarketDataSymbols l, ∃ t ∈ l, t.symbol = sym ∧
      t.turnover24h > HIGH_VOLUME_THRESHOLD ∧ jsEndsWith t.symbol "USDT" = true) := by
  refine ⟨rfl, ?_, ?_⟩
  · unfold getMarketDataSymbols
    simp [List.length_take]
  · intro sym hsym
    unfold getMarketDataSymbols at hsym
    simp only [List.mem_map] at hsym
    obtain ⟨t, ht, hts⟩ := hsym
    have ht' := List.mem_of_mem_take ht
    simp only [List.mem_filter, Bool.and_eq_true, decide_eq_true_eq] at ht'
    exact ⟨t, ht'.1, hts, ht'.2.2, ht'.2.1⟩

/-- C9 witness: instantiation of the membership conjunct at the
concrete one-ticker snapshot. -/
theorem C9_market_candidates_witness :
    ∃ t ∈ [tickerBTC], t.symbol = "BTCUSDT" ∧
      t.turnover24h > HIGH_VOLUME_THRESHOLD ∧ jsEndsWith t.symbol "USDT" = true :=
  (C9_market_candidates [tickerBTC]).2.2 "BTCUSDT"
    (by norm_num [getMarketDataSymbols, tickerBTC, jsEndsWith,
      HIGH_VOLUME_THRESHOLD, List.filter])


theorem exec_eval :
    executeM aExecuting envOpen decOne
      = ⟨posState, [.placeOrder "BTCUSDT" .LONG (1/500) 55000 45000], false⟩ := by
  norm_num [executeM, Decimal.val, toFixed]

theorem analyze_eval :
    analyzeM aAnalyzing envOpen
      = ⟨posState,
        [.enterExecuting, .placeOrder "BTCUSDT" .LONG (1/500) 55000 45000],
        false⟩ := by
  simp [analyzeM, exec_eval]

theorem start_eval :
    applyAct (initAgent "P1" .PROFIT) (.start envOpen) = posState := by
  simp [applyAct, startStep, runStep, runBody, analyze_eval, initAgent]

theorem wake_close_fail_eval :
    applyAct posState (.wake envCloseFail) = errPosState := by
  norm_num [applyAct, runStep, runBody, holdM, closePositionM, errState,
    MAX_HOLD_DURATION]

theorem executeM_inv (s : AgentSt) (env : Env) (d : TradeDecision) :
    HoldInv (executeM s env d).st := by
  unfold HoldInv executeM errState
  dsimp only
  repeat' split
  all_goals intro h
  all_goals simp_all

theorem analyzeM_inv (s : AgentSt) (env : Env) (h : HoldInv s) :
    HoldInv (analyzeM s env).st := by
  unfold analyzeM
  dsimp only
  split
  · exact h
  · split
    · split
      · exact executeM_inv _ _ _
      · unfold HoldInv; intro hh; simp_all
    · unfold HoldInv; intro hh; simp_all

theorem closePositionM_inv (s : AgentSt) (env : Env) (h : HoldInv s) :
    HoldInv (closePositionM s env).st := by
  unfold HoldInv at h
  unfold HoldInv closePositionM errState
  dsimp only
  split
  · exact h
  · split
    all_goals intro hh
    all_goals simp_all

theorem recordClosedPositionM_inv (s : AgentSt) (env : Env) (h : HoldInv s) :
    HoldInv (recordClosedPositionM s env).st := by
  unfold HoldInv at h
  unfold HoldInv recordClosedPositionM errState
  dsimp only
  split
  · exact h
  · split
    all_goals intro hh
    all_goals simp_all

theorem holdM_inv (s : AgentSt) (env : Env) (h : HoldInv s) :
    HoldInv (holdM s env).st := by
  unfold holdM
  dsimp only
  split
  · unfold HoldInv; intro hh; simp_all
  · rename_i p hp
    split
    · unfold HoldInv at h ⊢; simp_all
    · exact recordClosedPositionM_inv _ _ h
    · split
      · apply closePositionM_inv
        unfold HoldInv; intro hh; simp
      · split
        · unfold HoldInv; intro hh; simp_all
        · split
          · dsimp only
            apply closePositionM_inv
            unfold HoldInv; intro hh; simp
          · unfold HoldInv; intro hh; simp_all

theorem runStep_inv (s : AgentSt) (env : Env) (h : HoldInv s) :
    HoldInv (runStep s env).1 := by
  have hb : HoldInv (runBody s env).st := by
    unfold runBody
    split
    · apply analyzeM_inv
      unfold HoldInv; intro hh; simp_all
    · apply analyzeM_inv
      unfold HoldInv; intro hh; simp_all
    · split
      · unfold HoldInv at h ⊢
        intro hh
        simp_all
      · exact holdM_inv _ _ h
    · unfold HoldInv; intro hh; simp_all
    · exact h
    · exact h
  unfold runStep
  dsimp only
  split
  · unfold HoldInv; intro hh; simp_all
  · exact hb

theorem applyAct_inv (s : AgentSt) (a : Act) (h : HoldInv s) :
    HoldInv (applyAct s a) := by
  cases a with
  | start env =>
      unfold applyAct startStep
      dsimp only
      split
      · exact h
      · exact runStep_inv _ _ h
  | stop =>
      unfold applyAct stopStep HoldInv
      intro hh; simp_all
  | wake env =>
      unfold applyAct
      dsimp only
      split
      · exact runStep_inv _ _ h
      · exact h

theorem runActs_inv (s : AgentSt) (as : List Act) (h : HoldInv s) :
    HoldInv (runActs s as) := by
  induction as generalizing s with
  | nil => exact h
  | cons a as ih =>
      rw [runActs, List.foldl_cons]
      exact ih _ (applyAct_inv _ _ h)

/-- C1 counterexample: after opening a position (`envOpen` cycle) and a
wake in which the forced close-order submission throws
(`envCloseFail`), the agent rests in `ERROR` — not a transitional
window adjacent to `EXECUTING`/`ANALYZING` — with `openPosition` still
set, so `state = Holding ⇔ openPosition ≠ none` fails on this error
path. -/
theorem C1_counterexample :
    (runActs (initAgent "P1" .PROFIT) [.start envOpen, .wake envCloseFail]).state
      = .ERROR ∧
    (runActs (initAgent "P1" .PROFIT)
        [.start envOpen, .wake envCloseFail]).openPosition = some posBTC ∧
    ¬ ((runActs (initAgent "P1" .PROFIT)
          [.start envOpen, .wake envCloseFail]).state = .HOLDING ↔
        (runActs (initAgent "P1" .PROFIT)
          [.start envOpen, .wake envCloseFail]).openPosition ≠ none) := by
  have h : runActs (initAgent "P1" .PROFIT) [.start envOpen, .wake envCloseFail]
      = errPosState := by
    rw [runActs, List.foldl_cons, List.foldl_cons, List.foldl_nil, start_eval,
      wake_close_fail_eval]
  rw [h]
  refine ⟨rfl, rfl, ?_⟩
  simp

/-- C1 (amended): between wake-ups, `state = Holding` implies
`openPosition ≠ none` in every state reachable from a fresh agent; the
converse direction of the claimed equivalence fails (see the
counterexample: a failed close order leaves `ERROR`, and subsequently
`COOLDOWN`/`ANALYZING`, with the position still referenced). -/
theorem C1_holding_has_position (id : String) (ty : StrategyType)
    (acts : List Act)
    (h : (runActs (initAgent id ty) acts).state = .HOLDING) :
    (runActs (initAgent id ty) acts).openPosition ≠ none := by
  have hinv : HoldInv (runActs (initAgent id ty) acts) := by
    apply runActs_inv
    unfold HoldInv
    intro hh
    simp [initAgent] at hh
  exact hinv h

/-- C1 witness: the invariant applied to the concrete one-wake trace
that opens a position. -/
theorem C1_holding_has_position_witness :
    (runActs (initAgent "P1" .PROFIT) [.start envOpen]).openPosition ≠ none :=
  C1_holding_has_position "P1" .PROFIT [.start envOpen] (by
    rw [runActs, List.foldl_cons, List.foldl_nil, start_eval])

/-- C2 counterexample: with market snapshot `[tickerBTC]` (candidate
set `[BTCUSDT]`), the oracle answer `XYZUSDT` with high confidence is
accepted — `analyze` assigns `EXECUTING` and calls `execute` — even
though `XYZUSDT` is not in the candidate set: the current `analyze`
never validates the symbol. -/
theorem C2_counterexample :
    Effect.enterExecuting ∈ (analyzeM aAnalyzing envRogue).evs ∧
    envRogue.decision = some decRogue ∧
    decRogue.symbol ∉ getMarketDataSymbols [tickerBTC] ∧
    envRogue.tickers = some [tickerBTC] := by
  refine ⟨?_, rfl, ?_, rfl⟩
  · simp [analyzeM, executeM]
  · norm_num [getMarketDataSymbols, tickerBTC, jsEndsWith,
      HIGH_VOLUME_THRESHOLD, List.filter]
    decide

/-- C2 (amended): when the market-data call succeeds, `analyze` accepts
a decision — entering `EXECUTING` — exactly when the oracle returned one
with confidence other than `'low'`; the symbol is never validated
against the candidate set.  Every non-accepted outcome routes to
`COOLDOWN`. -/
theorem C2_accept_condition (s : AgentSt) (env : Env) (tks : List Ticker)
    (ht : env.tickers = some tks) :
    (Effect.enterExecuting ∈ (analyzeM s env).evs ↔
      ∃ d, env.decision = some d ∧ d.confidence ≠ .low) ∧
    (Effect.enterExecuting ∉ (analyzeM s env).evs →
      (analyzeM s env).st.state = .COOLDOWN) := by
  unfold analyzeM
  rw [ht]
  dsimp only
  rcases hd : env.decision with _ | d
  · simp
  · by_cases hc : d.confidence = .low
    · simp [hc]
    · simp [hc]

/-- C2 witness: the acceptance condition instantiated at the rogue
environment. -/
theorem C2_accept_condition_witness :
    (Effect.enterExecuting ∈ (analyzeM aAnalyzing envRogue).evs ↔
      ∃ d, envRogue.decision = some d ∧ d.confidence ≠ .low) ∧
    (Effect.enterExecuting ∉ (analyzeM aAnalyzing envRogue).evs →
      (analyzeM aAnalyzing envRogue).st.state = .COOLDOWN) :=
  C2_accept_condition aAnalyzing envRogue [tickerBTC] rfl

theorem analyze_notrade_eval :
    analyzeM aAnalyzing envNoTrade = ⟨cdState, [], false⟩ := by
  simp [analyzeM]

theorem start_notrade_eval :
    applyAct (initAgent "P1" .PROFIT) (.start envNoTrade) = cdState := by
  simp [applyAct, startStep, runStep, runBody, analyze_notrade_eval, initAgent]

theorem stop_cd_eval : applyAct cdState .stop = stoppedState := rfl

theorem start_again_eval :
    startStep stoppedState envNoTrade = (cdState, []) := by
  simp [startStep, runStep, runBody, analyze_notrade_eval]

/-- C8 counterexample: the first `start()` is honored (the state leaves
`STOPPED`), `stop()` returns the agent to `STOPPED`, and then a second
`start()` is honored again — it runs a cycle and moves the state to
`COOLDOWN` — contradicting "at most one start() call is ever honored
over the instance's whole lifetime ... including after stop()". -/
theorem C8_counterexample :
    (runActs (initAgent "P1" .PROFIT) [.start envNoTrade]).state ≠ .STOPPED ∧
    (runActs (initAgent "P1" .PROFIT) [.start envNoTrade, .stop]).state
      = .STOPPED ∧
    (startStep (runActs (initAgent "P1" .PROFIT) [.start envNoTrade, .stop])
        envNoTrade).1.state = .COOLDOWN ∧
    (startStep (runActs (initAgent "P1" .PROFIT) [.start envNoTrade, .stop])
        envNoTrade).1
      ≠ runActs (initAgent "P1" .PROFIT) [.start envNoTrade, .stop] := by
  have h1 : runActs (initAgent "P1" .PROFIT) [.start envNoTrade] = cdState := by
    rw [runActs, List.foldl_cons, List.foldl_nil, start_notrade_eval]
  have h2 : runActs (initAgent "P1" .PROFIT) [.start envNoTrade, .stop]
      = stoppedState := by
    rw [runActs, List.foldl_cons, List.foldl_cons, List.foldl_nil,
      start_notrade_eval, stop_cd_eval]
  rw [h1, h2, start_again_eval]
  refine ⟨by simp, rfl, rfl, ?_⟩
  intro hEq
  exact absurd (congrArg AgentSt.state hEq) (by simp)

/-- C8 (amended): `start()` is honored exactly when the state is
`STOPPED` (so it is honored again after `stop()`), and is a no-op
otherwise; `stop()` clears the pending wake timer and forces
`STOPPED`, and with the timer cleared a timer wake is a no-op, so no
further cycle fires until a new `start()`. -/
theorem C8_start_stop (s : AgentSt) (env : Env) :
    startStep s env
      = (if s.state = .STOPPED then runStep s env else (s, [])) ∧
    stopStep s = { s with state := .STOPPED, timeoutId := none } ∧
    applyAct (stopStep s) (.wake env) = stopStep s := by
  refine ⟨?_, rfl, ?_⟩
  · unfold startStep
    by_cases hs : s.state = .STOPPED
    · simp [hs]
    · simp [hs]
  · simp [applyAct, stopStep]

theorem toFixed_exact (d : ℕ) (x : ℚ) (n : ℤ) (h : x * 10 ^ d = (n : ℚ)) :
    toFixed d x = x := by
  have h10 : (10 : ℚ) ^ d ≠ 0 := by positivity
  unfold toFixed
  rw [h]
  have hfl : (⌊(n : ℚ) + 1/2⌋ : ℤ) = n := by
    rw [Int.floor_int_add]
    norm_num
  rw [hfl, ← h, mul_div_assoc, div_self h10, mul_one]

theorem toFixed_le (d : ℕ) (x : ℚ) :
    toFixed d x ≤ x + 1 / (2 * 10 ^ d) := by
  have h10 : (0 : ℚ) < 10 ^ d := by positivity
  unfold toFixed
  rw [div_le_iff₀ h10]
  calc ((⌊x * 10 ^ d + 1/2⌋ : ℤ) : ℚ) ≤ x * 10 ^ d + 1/2 := Int.floor_le _
    _ = (x + 1 / (2 * 10 ^ d)) * 10 ^ d := by field_simp; ring

theorem toFixed_gt (d : ℕ) (x : ℚ) :
    x - 1 / (2 * 10 ^ d) < toFixed d x := by
  have h10 : (0 : ℚ) < 10 ^ d := by positivity
  unfold toFixed
  rw [lt_div_iff₀ h10]
  calc (x - 1 / (2 * 10 ^ d)) * 10 ^ d = x * 10 ^ d + 1/2 - 1 := by
        field_simp; ring
    _ < ((⌊x * 10 ^ d + 1/2⌋ : ℤ) : ℚ) := Int.sub_one_lt_floor _

theorem executeM_evs_shape (s : AgentSt) (env : Env) (d : TradeDecision)
    (inst : Instrument) (price : ℚ)
    (hi : env.instrument = some inst) (ht : env.lastPrice = some price)
    (hl : env.levOk = true) :
    ∀ sym sd q tp sl, Effect.placeOrder sym sd q tp sl ∈ (executeM s env d).evs →
      q = toFixed inst.qtyStep.e
        ((⌊(100 / price) / inst.qtyStep.val⌋ : ℚ) * inst.qtyStep.val) ∧
      ¬ (100 / price < inst.minOrderQty.val) ∧
      tp = toFixed inst.tickSize.e
        (if s.stratType = .PROFIT then price * (1 + 1/10) else price * (1 - 1/10)) ∧
      sl = toFixed inst.tickSize.e
        (if s.stratType = .PROFIT then price * (1 - 1/10) else price * (1 + 1/10)) ∧
      sd = (if s.stratType = .PROFIT then OrderSide.LONG else OrderSide.SHORT) := by
  intro sym sd q tp sl hmem
  unfold executeM at hmem
  rcases hty : s.stratType
  all_goals simp only [hty, hl, hi, ht] at hmem
  all_goals simp only [Bool.not_true, Bool.false_eq_true, if_false] at hmem
  all_goals (repeat' split at hmem)
  all_goals simp_all [hty]

theorem executeM_abort (s : AgentSt) (env : Env) (d : TradeDecision)
    (inst : Instrument) (price : ℚ)
    (hi : env.instrument = some inst) (ht : env.lastPrice = some price)
    (hl : env.levOk = true)
    (hq : 100 / price < inst.minOrderQty.val) :
    (executeM s env d).evs = [] ∧ (executeM s env d).st.state = .COOLDOWN := by
  unfold executeM
  simp only [hl, hi, ht]
  simp [hq]

/-- C3 counterexample: with `minOrderQty = 3` and `qtyStep = 2` at
price `200/7`, the raw quantity `3.5` passes the minimum check — which
`execute` performs before flooring — and a market order is submitted
with quantity `2`, strictly below the instrument minimum `3`. -/
theorem C3_counterexample :
    (executeM aExecuting envOdd decOne).evs
      = [.placeOrder "BTCUSDT" .LONG 2 31 26] ∧
    (2 : ℚ) < instOdd.minOrderQty.val := by
  constructor
  · norm_num [executeM, Decimal.val, toFixed]
  · norm_num [Decimal.val]

/-- C3 (amended): assume the instrument minimum is an integer multiple
of the quantity step (true of real instrument filters).  Then every
order `execute` submits has a quantity that is a multiple of the step
and at least the minimum; and when the raw quantity `100 / price` is
below the minimum — which, under the multiple assumption, is exactly
when no quantity satisfying both constraints fits the $100 notional —
no order call occurs and the agent enters `COOLDOWN`, not `ERROR`.
Without the multiple assumption the submitted quantity can fall below
the minimum, because the code checks the minimum before flooring (see
the counterexample). -/
theorem C3_quantity (s : AgentSt) (env : Env) (d : TradeDecision)
    (inst : Instrument) (price : ℚ) (k : ℤ)
    (hi : env.instrument = some inst) (ht : env.lastPrice = some price)
    (hl : env.levOk = true) (hstep : 0 < inst.qtyStep.val)
    (hmin : inst.minOrderQty.val = (k : ℚ) * inst.qtyStep.val) :
    (∀ sym sd q tp sl,
      Effect.placeOrder sym sd q tp sl ∈ (executeM s env d).evs →
        (∃ j : ℤ, q = (j : ℚ) * inst.qtyStep.val) ∧
        inst.minOrderQty.val ≤ q) ∧
    (100 / price < inst.minOrderQty.val →
      (executeM s env d).evs = [] ∧ (executeM s env d).st.state = .COOLDOWN) := by
  constructor
  · intro sym sd q tp sl hmem
    obtain ⟨hq, hnotlt, -, -, -⟩ :=
      executeM_evs_shape s env d inst price hi ht hl sym sd q tp sl hmem
    have h10 : (10 : ℚ) ^ inst.qtyStep.e ≠ 0 := by positivity
    have hstepval : inst.qtyStep.val = (inst.qtyStep.m : ℚ) / 10 ^ inst.qtyStep.e :=
      rfl
    have hexact : q = (⌊(100 / price) / inst.qtyStep.val⌋ : ℚ) * inst.qtyStep.val := by
      rw [hq]
      apply toFixed_exact _ _ (⌊(100 / price) / inst.qtyStep.val⌋ * inst.qtyStep.m)
      rw [hstepval]
      push_cast
      field_simp
    refine ⟨⟨⌊(100 / price) / inst.qtyStep.val⌋, hexact⟩, ?_⟩
    have hk : (k : ℚ) ≤ (100 / price) / inst.qtyStep.val := by
      rw [le_div_iff₀ hstep]
      rw [hmin] at hnotlt
      linarith [not_lt.mp hnotlt]
    have hkfl : (k : ℚ) ≤ (⌊(100 / price) / inst.qtyStep.val⌋ : ℚ) := by
      exact_mod_cast Int.le_floor.mpr hk
    rw [hexact, hmin]
    exact mul_le_mul_of_nonneg_right hkfl (le_of_lt hstep)
  · intro hq
    exact executeM_abort s env d inst price hi ht hl hq

/-- C3 witness: the amended statement at the spec §8 scenario
(`minOrderQty = qtyStep = 0.001`, price 50000): the submitted quantity
`0.002` is a step multiple and at least the minimum. -/
theorem C3_quantity_witness :
    (∃ j : ℤ, (1/500 : ℚ) = (j : ℚ) * instBTC.qtyStep.val) ∧
    instBTC.minOrderQty.val ≤ (1/500 : ℚ) :=
  (C3_quantity aExecuting envOpen decOne instBTC 50000 1 rfl rfl rfl
      (by norm_num [Decimal.val]) (by norm_num [Decimal.val])).1
    "BTCUSDT" .LONG (1/500) 55000 45000
    (by rw [exec_eval]; simp)

/-- C5 counterexample: with tick size `0.5` at entry price `0.5`
(long), the submitted take-profit `0.6` is not on the tick grid — the
code rounds to the tick's decimal count, not to the tick — and the
submitted stop-loss equals the entry price `0.5`, so `SL < entry`
fails. -/
theorem C5_counterexample :
    (executeM aExecuting envTick decOne).evs
      = [.placeOrder "BTCUSDT" .LONG 200 (3/5) (1/2)] ∧
    ¬ ((1/2 : ℚ) < (1/2 : ℚ)) ∧
    ¬ (∃ j : ℤ, (3/5 : ℚ) = (j : ℚ) * instTick.tickSize.val) := by
  refine ⟨?_, by norm_num, ?_⟩
  · norm_num [executeM, Decimal.val, toFixed]
  · rintro ⟨j, hj⟩
    rw [show instTick.tickSize.val = 1/2 by norm_num [Decimal.val]] at hj
    have h5 : (6 : ℚ) = 5 * (j : ℚ) := by linarith
    have h6 : (6 : ℤ) = 5 * j := by exact_mod_cast h5
    omega

/-- C5 (amended): every order `execute` submits carries TP and SL
prices equal to the entry moved by ±10% and rounded half-up at the
tick size's decimal count (multiples of `10^-e`, hence of the tick
only when the tick is a power of ten); and whenever 10% of the entry
price exceeds half an ulp (`1/(2·10^e) < price/10`) they lie strictly
on the correct side of entry: long TP > entry > SL, short
TP < entry < SL.  At coarser ticks or tiny prices the rounded prices
can collapse onto or across the entry (see the counterexample). -/
theorem C5_tp_sl (s : AgentSt) (env : Env) (d : TradeDecision)
    (inst : Instrument) (price : ℚ)
    (hi : env.instrument = some inst) (ht : env.lastPrice = some price)
    (hl : env.levOk = true)
    (hbig : 1 / (2 * 10 ^ inst.tickSize.e) < price / 10) :
    ∀ sym sd q tp sl,
      Effect.placeOrder sym sd q tp sl ∈ (executeM s env d).evs →
        (∃ a : ℤ, tp = (a : ℚ) / 10 ^ inst.tickSize.e) ∧
        (∃ b : ℤ, sl = (b : ℚ) / 10 ^ inst.tickSize.e) ∧
        (sd = .LONG → sl < price ∧ price < tp) ∧
        (sd = .SHORT → tp < price ∧ price < sl) := by
  intro sym sd q tp sl hmem
  obtain ⟨-, -, htp, hsl, hsd⟩ :=
    executeM_evs_shape s env d inst price hi ht hl sym sd q tp sl hmem
  rcases hty : s.stratType with _ | _
  · rw [hty, if_pos rfl] at htp hsl hsd
    refine ⟨⟨_, by rw [htp]; rfl⟩, ⟨_, by rw [hsl]; rfl⟩, ?_, ?_⟩
    · intro _
      constructor
      · calc sl ≤ price * (1 - 1/10) + 1 / (2 * 10 ^ inst.tickSize.e) := by
              rw [hsl]; exact toFixed_le _ _
          _ < price := by linarith
      · have hg := toFixed_gt inst.tickSize.e (price * (1 + 1/10))
        rw [← htp] at hg
        linarith
    · intro hshort
      rw [hsd] at hshort
      exact absurd hshort (by decide)
  · rw [hty, if_neg (by decide)] at htp hsl hsd
    refine ⟨⟨_, by rw [htp]; rfl⟩, ⟨_, by rw [hsl]; rfl⟩, ?_, ?_⟩
    · intro hlong
      rw [hsd] at hlong
      exact absurd hlong (by decide)
    · intro _
      constructor
      · calc tp ≤ price * (1 - 1/10) + 1 / (2 * 10 ^ inst.tickSize.e) := by
              rw [htp]; exact toFixed_le _ _
          _ < price := by linarith
      · have hg := toFixed_gt inst.tickSize.e (price * (1 + 1/10))
        rw [← hsl] at hg
        linarith

/-- C5 witness: the amended statement at the spec §8 scenario
(tick 0.1, entry 50000, long): TP 55000 and SL 45000 are on the
0.1-decimal grid and straddle the entry. -/
theorem C5_tp_sl_witness :
    (∃ a : ℤ, (55000 : ℚ) = (a : ℚ) / 10 ^ instBTC.tickSize.e) ∧
    (∃ b : ℤ, (45000 : ℚ) = (b : ℚ) / 10 ^ instBTC.tickSize.e) ∧
    (OrderSide.LONG = .LONG → (45000 : ℚ) < 50000 ∧ (50000 : ℚ) < 55000) ∧
    (OrderSide.LONG = .SHORT → (55000 : ℚ) < 50000 ∧ (50000 : ℚ) < 45000) :=
  C5_tp_sl aExecuting envOpen decOne instBTC 50000 rfl rfl rfl
    (by norm_num) "BTCUSDT" .LONG (1/500) 55000 45000
    (by rw [exec_eval]; simp)

theorem executeM_acc (s : AgentSt) (env : Env) (d : TradeDecision) :
    (executeM s env d).st.balance = s.balance ∧
    (executeM s env d).st.pnl = s.pnl ∧
    (executeM s env d).st.trades = s.trades := by
  unfold executeM errState
  dsimp only
  repeat' split
  all_goals simp

theorem analyzeM_acc (s : AgentSt) (env : Env) :
    (analyzeM s env).st.balance = s.balance ∧
    (analyzeM s env).st.pnl = s.pnl ∧
    (analyzeM s env).st.trades = s.trades := by
  unfold analyzeM
  dsimp only
  split
  · exact ⟨rfl, rfl, rfl⟩
  · split
    · split
      · simpa using executeM_acc { s with state := .EXECUTING } env _
      · exact ⟨rfl, rfl, rfl⟩
    · exact ⟨rfl, rfl, rfl⟩

theorem closePositionM_acc (s : AgentSt) (env : Env) :
    (closePositionM s env).st.balance = s.balance ∧
    (closePositionM s env).st.pnl = s.pnl ∧
    (closePositionM s env).st.trades = s.trades := by
  unfold closePositionM errState
  dsimp only
  repeat' split
  all_goals simp

theorem recordM_acc (s : AgentSt) (env : Env)
    (h : (recordClosedPositionM s env).st.trades = s.trades) :
    (recordClosedPositionM s env).st.balance = s.balance ∧
    (recordClosedPositionM s env).st.pnl = s.pnl := by
  unfold recordClosedPositionM errState at h ⊢
  dsimp only at h ⊢
  rcases hp : s.openPosition with _ | p
  · simp only [hp] at h ⊢
    trivial
  · rcases hc : env.closedPnl with _ | (_ | cp)
    all_goals simp only [hp, hc] at h ⊢
    · trivial
    · trivial
    · exfalso
      have hlen := congrArg List.length h
      rw [List.length_append] at hlen
      simp at hlen

theorem holdM_acc (s : AgentSt) (env : Env)
    (h : (holdM s env).st.trades = s.trades) :
    (holdM s env).st.balance = s.balance ∧ (holdM s env).st.pnl = s.pnl := by
  unfold holdM at h ⊢
  dsimp only at h ⊢
  rcases hp : s.openPosition with _ | p
  all_goals simp only [hp] at h ⊢
  · trivial
  · rcases hph : env.posInHold with _ | (_ | bp)
    all_goals simp only [hph] at h ⊢
    · trivial
    · exact recordM_acc s env h
    · by_cases htime : env.now - p.entryTimestamp > MAX_HOLD_DURATION
      · rw [if_pos htime] at h ⊢
        have hc := closePositionM_acc
          { s with
            openPosition := some { p with unrealizedPnl := bp.unrealisedPnl } }
          env
        exact ⟨hc.1, hc.2.1⟩
      · rw [if_neg htime] at h ⊢
        rcases htk : env.tickers with _ | tks
        all_goals simp only [htk] at h ⊢
        · trivial
        · rcases hv : env.holdVerdict with _ | hv'
          · simp only [hv] at h ⊢
            trivial
          · cases hv'
            · simp only [hv] at h ⊢
              trivial
            · simp only [hv] at h ⊢
              have hc := closePositionM_acc
                { s with
                  openPosition :=
                    some { p with unrealizedPnl := bp.unrealisedPnl } }
                env
              exact ⟨hc.1, hc.2.1⟩

theorem runBody_acc (s : AgentSt) (env : Env)
    (h : (runBody s env).st.trades = s.trades) :
    (runBody s env).st.balance = s.balance ∧ (runBody s env).st.pnl = s.pnl := by
  unfold runBody at h ⊢
  rcases hs : s.state
  all_goals simp only [hs] at h ⊢
  · have ha := analyzeM_acc { s with state := .ANALYZING } env
    exact ⟨ha.1, ha.2.1⟩
  · trivial
  · trivial
  · rcases hp : s.openPosition with _ | p
    all_goals simp only [hp] at h ⊢
    · trivial
    · exact holdM_acc s env h
  · have ha := analyzeM_acc { s with state := .ANALYZING } env
    exact ⟨ha.1, ha.2.1⟩
  · trivial

theorem runStep_acc (s : AgentSt) (env : Env)
    (h : (runStep s env).1.trades = s.trades) :
    (runStep s env).1.balance = s.balance ∧ (runStep s env).1.pnl = s.pnl := by
  unfold runStep at h ⊢
  dsimp only at h ⊢
  by_cases hth : (runBody s env).thrown = true
  · rw [if_pos hth] at h ⊢
    exact runBody_acc s env h
  · rw [if_neg hth] at h ⊢
    exact runBody_acc s env h

theorem applyAct_acc (s : AgentSt) (a : Act)
    (h : (applyAct s a).trades = s.trades) :
    (applyAct s a).balance = s.balance ∧ (applyAct s a).pnl = s.pnl := by
  cases a with
  | start env =>
      unfold applyAct startStep at h ⊢
      dsimp only at h ⊢
      by_cases hs : s.state = .STOPPED
      · rw [if_neg (not_not_intro hs)] at h ⊢
        exact runStep_acc s env h
      · rw [if_pos hs] at h ⊢
        exact ⟨rfl, rfl⟩
  | stop => exact ⟨rfl, rfl⟩
  | wake env =>
      unfold applyAct at h ⊢
      dsimp only at h ⊢
      by_cases hw : s.timeoutId.isSome = true
      · rw [if_pos hw] at h ⊢
        exact runStep_acc { s with timeoutId := none } env h
      · rw [if_neg hw] at h ⊢
        exact ⟨rfl, rfl⟩

/-- C4: across every stimulus (start, stop or wake) the agent's
`balance` and `pnl` accumulators are unchanged whenever the `trades`
list is unchanged — they only move together with an appended
`Trade`; and in the reconciliation scenario where the exchange
closed-PnL query returns no row, `recordClosedPosition` ends in
`COOLDOWN` with zero trades appended and `balance` and `pnl`
untouched. -/
theorem C4_accumulators (s : AgentSt) (env : Env) (a : Act) (p : Position) :
    ((applyAct s a).trades = s.trades →
      (applyAct s a).balance = s.balance ∧ (applyAct s a).pnl = s.pnl) ∧
    (s.openPosition = some p → env.closedPnl = some none →
      (recordClosedPositionM s env).st.state = .COOLDOWN ∧
      (recordClosedPositionM s env).st.trades = s.trades ∧
      (recordClosedPositionM s env).st.balance = s.balance ∧
      (recordClosedPositionM s env).st.pnl = s.pnl) := by
  refine ⟨applyAct_acc s a, ?_⟩
  intro hp hc
  unfold recordClosedPositionM
  simp only [hp, hc]
  refine ⟨?_, ?_, ?_, ?_⟩ <;> trivial

/-- C4 witness: the scenario instantiated at a holding agent whose
closed-PnL query returns no row, plus the stimulus part at a `stop()`
call. -/
theorem C4_accumulators_witness :
    ((applyAct posState .stop).balance = posState.balance ∧
      (applyAct posState .stop).pnl = posState.pnl) ∧
    ((recordClosedPositionM posState envCloseFail).st.state = .COOLDOWN ∧
      (recordClosedPositionM posState envCloseFail).st.trades = posState.trades ∧
      (recordClosedPositionM posState envCloseFail).st.balance = posState.balance ∧
      (recordClosedPositionM posState envCloseFail).st.pnl = posState.pnl) :=
  ⟨(C4_accumulators posState envCloseFail .stop posBTC).1 rfl,
    (C4_accumulators posState envCloseFail .stop posBTC).2 rfl rfl⟩

theorem foldl_applyEvent_none (es : List Effect) (s : AgentSt)
    (h : s.openPosition = none) :
    (es.foldl applyEvent s).openPosition = none := by
  induction es generalizing s with
  | nil => exact h
  | cons e es ih =>
      rw [List.foldl_cons]
      apply ih
      cases e <;> simp [applyEvent, h]

theorem clear_first_spec (tail : List Effect) (s : AgentSt) :
    (∀ pre e post,
      Effect.clearPosition :: tail = pre ++ e :: post →
      isPnlEvent e = true → Effect.clearPosition ∈ pre) ∧
    (∀ pre post,
      Effect.clearPosition :: tail = pre ++ post →
      (pre.foldl applyEvent s).balance ≠ s.balance →
      (pre.foldl applyEvent s).openPosition = none) := by
  constructor
  · intro pre e post heq hpe
    cases pre with
    | nil =>
        rw [List.nil_append] at heq
        injection heq with h1 h2
        rw [← h1] at hpe
        simp [isPnlEvent] at hpe
    | cons a pre' =>
        rw [List.cons_append] at heq
        injection heq with h1 h2
        rw [← h1]
        exact List.mem_cons_self _ _
  · intro pre post heq hb
    cases pre with
    | nil =>
        rw [List.foldl_nil] at hb
        exact absurd rfl hb
    | cons a pre' =>
        rw [List.cons_append] at heq
        injection heq with h1 h2
        rw [List.foldl_cons, ← h1]
        apply foldl_applyEvent_none
        simp [applyEvent]

/-- C6: in `recordClosedPosition` the in-memory `openPosition` is
cleared strictly before the PnL query or any PnL accumulation runs:
in the method's effect sequence every PnL-related effect is preceded
by `clearPosition`, and an observer replaying any prefix of the
sequence that has already changed the balance necessarily sees
`openPosition = none` — so no observer can see a still-set
`openPosition` together with an already-updated balance. -/
theorem C6_clear_before_pnl (s : AgentSt) (env : Env) (p : Position)
    (hp : s.openPosition = some p) :
    (∀ pre e post,
      (recordClosedPositionM s env).evs = pre ++ e :: post →
      isPnlEvent e = true → Effect.clearPosition ∈ pre) ∧
    (∀ pre post,
      (recordClosedPositionM s env).evs = pre ++ post →
      (pre.foldl applyEvent s).balance ≠ s.balance →
      (pre.foldl applyEvent s).openPosition = none) := by
  have hevs : ∃ tail, (recordClosedPositionM s env).evs
      = Effect.clearPosition :: tail := by
    unfold recordClosedPositionM
    rcases hc : env.closedPnl with _ | (_ | cp)
    all_goals simp only [hp, hc]
    all_goals exact ⟨_, rfl⟩
  obtain ⟨tail, htail⟩ := hevs
  rw [htail]
  exact clear_first_spec tail s

/-- C6 witness: the ordering property instantiated at the concrete
reconciliation of `posState` under `envCloseFail`. -/
theorem C6_clear_before_pnl_witness :
    (∀ pre e post,
      (recordClosedPositionM posState envCloseFail).evs = pre ++ e :: post →
      isPnlEvent e = true → Effect.clearPosition ∈ pre) ∧
    (∀ pre post,
      (recordClosedPositionM posState envCloseFail).evs = pre ++ post →
      (pre.foldl applyEvent posState).balance ≠ posState.balance →
      (pre.foldl applyEvent posState).openPosition = none) :=
  C6_clear_before_pnl posState envCloseFail posBTC rfl

/-- C7: on a wake in `HOLDING` with the position still open on the
exchange, if the position has been held longer than
`MAX_HOLD_DURATION` the agent submits a close order without consulting
the oracle for a hold/close verdict; conversely the hold/close oracle
consultation only ever happens when the hold duration is not
exceeded. -/
theorem C7_max_hold (s : AgentSt) (env : Env) (p : Position) (bp : BybitPos)
    (hs : s.state = .HOLDING) (hp : s.openPosition = some p)
    (hbp : env.posInHold = some (some bp)) :
    (env.now - p.entryTimestamp > MAX_HOLD_DURATION →
      Effect.closeOrder p.symbol p.side p.size ∈ (runStep s env).2 ∧
      Effect.oracleHoldQuery ∉ (runStep s env).2) ∧
    (Effect.oracleHoldQuery ∈ (runStep s env).2 →
      env.now - p.entryTimestamp ≤ MAX_HOLD_DURATION) := by
  have hevs : (runStep s env).2 = (holdM s env).evs := by
    unfold runStep runBody
    dsimp only
    simp only [hs, hp]
    split <;> rfl
  rw [hevs]
  unfold holdM
  simp only [hp, hbp]
  by_cases htime : env.now - p.entryTimestamp > MAX_HOLD_DURATION
  · rw [if_pos htime]
    constructor
    · intro _
      unfold closePositionM
      dsimp only
      constructor
      · split <;> simp
      · split <;> simp
    · intro hmem
      unfold closePositionM at hmem
      dsimp only at hmem
      split at hmem <;> simp_all
  · rw [if_neg htime]
    exact ⟨fun h => absurd h htime, fun _ => not_lt.mp htime⟩

/-- C7 witness: the forced close at the concrete overdue wake
(`envCloseFail`, position held 10'000'000 ms > one hour). -/
theorem C7_max_hold_witness :
    Effect.closeOrder posBTC.symbol posBTC.side posBTC.size
        ∈ (runStep posState envCloseFail).2 ∧
    Effect.oracleHoldQuery ∉ (runStep posState envCloseFail).2 :=
  (C7_max_hold posState envCloseFail posBTC bpBTC rfl rfl rfl).1
    (by show (10000000 : ℤ) - 0 > MAX_HOLD_DURATION; norm_num [MAX_HOLD_DURATION])
